import Mathlib

/-!
Shallow embedding of `core-foundation/src/data.rs`: the safe wrappers
`CFData` (immutable view) and `CFMutableData` (exclusive mutable view)
around Core Foundation byte buffers.

The foreign Core Foundation runtime (`CFDataCreate`, `CFDataGetLength`,
`CFDataReplaceBytes`, ...) lives outside this crate; its primitives are
modelled from the spec's description of the external interface (spec §6).
The generic wrapper machinery `declare_TCFType!` / `impl_TCFType!` (with its
`Drop` and `Clone` implementations) is repository code that is not under
`src/`; those parts are modelled from the spec as well and marked so.

Machine bytes (`u8`) are modelled as `Nat`: the wrapper only copies,
appends and zero-fills bytes and never computes on them.  `CFIndex`
lengths are modelled as `Nat`: all lengths involved are non-negative and
no overflowing arithmetic occurs in the wrapper.

Every wrapper method is translated in state-passing style over the runtime
state `CFState`: a method that performs only non-mutating foreign calls
returns the state it was given, a mutating method returns the updated
state, and a fatal foreign-runtime condition (capacity exceeded, dead
handle) is `none`.
-/

namespace CFEmbed

/-- Modelled from the spec: one foreign reference-counted byte-buffer
object of the external Core Foundation runtime (spec §6, §3): its current
byte contents, its capacity bound (`0` meaning unbounded, spec §4.2) and
its retain count. -/
structure CFObject where
  bytes : List Nat
  capacity : Nat
  retainCount : Nat
deriving DecidableEq

/-- Modelled from the spec: the state of the foreign runtime — the
allocated objects, addressed by handle (their index in the list; a
deallocated slot is `none`) — together with a ghost counter of `release`
calls, used to state the resource discipline of spec §5. -/
structure CFState where
  objects : List (Option CFObject)
  releases : Nat
deriving DecidableEq

/-- The object a handle refers to, if its slot is live. -/
def CFState.lookup (s : CFState) (h : Nat) : Option CFObject :=
  s.objects.getD h none

/-- Overwrite the object a handle refers to. -/
def CFState.update (s : CFState) (h : Nat) (o : CFObject) : CFState :=
  { s with objects := s.objects.set h (some o) }

/-- Modelled from the spec: `create_buffer(allocator, bytes, length)` —
"allocate + seed a fixed buffer, returns one retained handle" (spec §6). -/
def CFDataCreate (s : CFState) (buffer : List Nat) : Nat × CFState :=
  (s.objects.length,
   { s with objects := s.objects ++ [some ⟨buffer, 0, 1⟩] })

/-- Modelled from the spec: `create_growable_buffer(allocator,
max_capacity)` — "allocate an empty growable buffer with optional capacity
bound" (spec §6); a bound of `0` means unbounded (spec §4.2). -/
def CFDataCreateMutable (s : CFState) (maximumCapacity : Nat) : Nat × CFState :=
  (s.objects.length,
   { s with objects := s.objects ++ [some ⟨[], maximumCapacity, 1⟩] })

/-- Modelled from the spec: `get_length(handle) -> length` (spec §6): the
object's current element count, read without modifying the runtime. -/
def CFDataGetLength (s : CFState) (h : Nat) : Option Nat :=
  (s.lookup h).map fun o => o.bytes.length

/-- Modelled from the spec: `get_read_pointer(handle) -> pointer`, "valid
for `get_length(handle)` bytes" (spec §6): the pointer is modelled as the
byte sequence it points to. -/
def CFDataGetBytePtr (s : CFState) (h : Nat) : Option (List Nat) :=
  (s.lookup h).map fun o => o.bytes

/-- Modelled from the spec: `get_write_pointer(handle) -> pointer`, "valid
for `get_length(handle)` bytes" (spec §6). -/
def CFDataGetMutableBytePtr (s : CFState) (h : Nat) : Option (List Nat) :=
  (s.lookup h).map fun o => o.bytes

/-- Modelled from the spec: `replace_range(handle, offset, old_length,
new_bytes, new_length)` — "splice bytes at an arbitrary offset/length"
(spec §6).  Growing a capacity-bounded buffer past its bound is the fatal,
non-recoverable capacity-exceeded condition (spec §4.2, §7, §8), modelled
as `none`. -/
def CFDataReplaceBytes (s : CFState) (h : Nat) (location rangeLength : Nat)
    (newBytes : List Nat) : Option CFState :=
  match s.lookup h with
  | none => none
  | some o =>
    let result := o.bytes.take location ++ newBytes ++
      o.bytes.drop (location + rangeLength)
    if o.capacity ≠ 0 ∧ o.capacity < result.length then none
    else some (s.update h { o with bytes := result })

/-- Modelled from the spec: `set_length(handle, new_length)` — "truncate
or zero-extend" (spec §6): a smaller length truncates, discarding trailing
bytes; a larger one grows in place, filling the new bytes with zero
(spec §4.2). -/
def CFDataSetLength (s : CFState) (h : Nat) (newLength : Nat) : Option CFState :=
  match s.lookup h with
  | none => none
  | some o =>
    some (s.update h { o with
      bytes := o.bytes.take newLength ++
        List.replicate (newLength - o.bytes.length) 0 })

/-- Modelled from the spec: `release(handle)` (spec §6): decrement the
retain count, deallocating the object when it reaches zero; the ghost
counter records the call. -/
def CFRelease (s : CFState) (h : Nat) : Option CFState :=
  match s.lookup h with
  | none => none
  | some o =>
    some { objects :=
             if o.retainCount ≤ 1 then s.objects.set h none
             else s.objects.set h (some { o with retainCount := o.retainCount - 1 }),
           releases := s.releases + 1 }

/-- Modelled from the spec: `retain(handle)` (spec §6): increment the
retain count. -/
def CFRetain (s : CFState) (h : Nat) : Option CFState :=
  (s.lookup h).map fun o => s.update h { o with retainCount := o.retainCount + 1 }

/-- Source `CFData` (data.rs:22–27): the immutable byte-buffer wrapper declared
by `declare_TCFType!`; its only field is the raw reference (`CFDataRef`)
to the foreign object — no length or contents are cached. -/
structure CFData where
  ref : Nat
deriving DecidableEq

/-- Source `CFMutableData` (data.rs:66–76): the mutable byte-buffer wrapper; its
only field is the raw reference (`CFMutableDataRef`) to the foreign
object — no length or contents are cached. -/
structure CFMutableData where
  ref : Nat
deriving DecidableEq

/-- Source `CFData::from_buffer` (data.rs:30–37): `CFDataCreate` seeded with a
copy of the buffer, then `wrap_under_create_rule` — taking ownership of
the single retain produced by creation, with no extra retain (spec §6:
"all retains are implicit results of construction/wrap calls"). -/
def CFData.from_buffer (s : CFState) (buffer : List Nat) : CFData × CFState :=
  let p := CFDataCreate s buffer
  (⟨p.1⟩, p.2)

/-- Source `CFData::len` (data.rs:50–54): `CFDataGetLength(self.0)`, queried live
from the foreign object. -/
def CFData.len (s : CFState) (d : CFData) : Option (Nat × CFState) :=
  (CFDataGetLength s d.ref).map fun n => (n, s)

/-- Source `CFData::bytes` (data.rs:42–46):
`slice::from_raw_parts(CFDataGetBytePtr(self.0), self.len() as usize)` —
the slice covers exactly the first `self.len()` bytes at the read
pointer. -/
def CFData.bytes (s : CFState) (d : CFData) : Option (List Nat × CFState) :=
  (CFDataGetBytePtr s d.ref).bind fun p =>
    (CFData.len s d).map fun n => (p.take n.1, n.2)

/-- Source `impl Deref for CFData` (data.rs:57–64): `deref` is `self.bytes()`. -/
def CFData.deref (s : CFState) (d : CFData) : Option (List Nat × CFState) :=
  CFData.bytes s d

/-- Modelled from the spec: `Drop` for `CFData` comes from
`impl_TCFType!`, which is not under `src/`; per spec §5/§6 the destructor
performs exactly one `release` of the owned retain count at the end of
the handle's lifetime. -/
def CFData.drop (s : CFState) (d : CFData) : Option CFState :=
  CFRelease s d.ref

/-- Source `CFMutableData::with_maximum_capacity` (data.rs:86–91):
`CFDataCreateMutable` with the given bound, then
`wrap_under_create_rule`. -/
def CFMutableData.with_maximum_capacity (s : CFState) (maximumCapacity : Nat) :
    CFMutableData × CFState :=
  let p := CFDataCreateMutable s maximumCapacity
  (⟨p.1⟩, p.2)

/-- Source `CFMutableData::new` (data.rs:80–82): `with_maximum_capacity(0)`. -/
def CFMutableData.new (s : CFState) : CFMutableData × CFState :=
  CFMutableData.with_maximum_capacity s 0

/-- Source `CFMutableData::len` (data.rs:121–125): `CFDataGetLength(self.0)`,
queried live from the foreign object. -/
def CFMutableData.len (s : CFState) (d : CFMutableData) : Option (Nat × CFState) :=
  (CFDataGetLength s d.ref).map fun n => (n, s)

/-- Source `CFMutableData::bytes` (data.rs:95–99):
`slice::from_raw_parts(CFDataGetBytePtr(self.0), self.len() as usize)`. -/
def CFMutableData.bytes (s : CFState) (d : CFMutableData) :
    Option (List Nat × CFState) :=
  (CFDataGetBytePtr s d.ref).bind fun p =>
    (CFMutableData.len s d).map fun n => (p.take n.1, n.2)

/-- Source `CFMutableData::bytes_mut` (data.rs:103–107):
`slice::from_raw_parts_mut(CFDataGetMutableBytePtr(self.0), self.len() as
usize)`. -/
def CFMutableData.bytes_mut (s : CFState) (d : CFMutableData) :
    Option (List Nat × CFState) :=
  (CFDataGetMutableBytePtr s d.ref).bind fun p =>
    (CFMutableData.len s d).map fun n => (p.take n.1, n.2)

/-- Source `CFMutableData::extend_from_slice` (data.rs:110–117):
`CFDataReplaceBytes(self.0, CFRange { location: self.len(), length: 0 },
bytes.as_ptr(), bytes.len())` — replaces the zero-length range at offset
`self.len()` with the new bytes. -/
def CFMutableData.extend_from_slice (s : CFState) (d : CFMutableData)
    (bytes : List Nat) : Option CFState :=
  (CFMutableData.len s d).bind fun n =>
    CFDataReplaceBytes n.2 d.ref n.1 0 bytes

/-- Source `CFMutableData::set_len` (data.rs:131–135):
`CFDataSetLength(self.0, len)`. -/
def CFMutableData.set_len (s : CFState) (d : CFMutableData) (len : Nat) :
    Option CFState :=
  CFDataSetLength s d.ref len

/-- Source `CFMutableData::into_immutable` (data.rs:142–146):
`let reference = self.0; mem::forget(self); CFData(reference)` — a pure
ownership transfer: the raw reference is moved into a fresh `CFData`, the
consumed handle's destructor is suppressed by `mem::forget`, and no
foreign-runtime call (allocation, retain or release) is made, so the
runtime state is not an input or output of the operation. -/
def CFMutableData.into_immutable (d : CFMutableData) : CFData :=
  ⟨d.ref⟩

/-- Source `impl Deref for CFMutableData` (data.rs:149–156): `deref` is
`self.bytes()`. -/
def CFMutableData.deref (s : CFState) (d : CFMutableData) :
    Option (List Nat × CFState) :=
  CFMutableData.bytes s d

/-- Source `impl DerefMut for CFMutableData` (data.rs:158–163): `deref_mut` is
`self.bytes_mut()`. -/
def CFMutableData.deref_mut (s : CFState) (d : CFMutableData) :
    Option (List Nat × CFState) :=
  CFMutableData.bytes_mut s d

/-- Modelled from the spec: `Drop` for `CFMutableData` comes from
`impl_TCFType!` (not under `src/`); one `release` at end of lifetime
(spec §5/§6). -/
def CFMutableData.drop (s : CFState) (d : CFMutableData) : Option CFState :=
  CFRelease s d.ref

/-- Modelled from the spec: `Clone` for `CFMutableData` comes from
`impl_TCFType!` (not under `src/`), which per spec §9 "marks the mutable
variant as able to be duplicated purely as an artifact of deriving
generic wrapper behavior uniformly across both variants": it retains the
object and wraps the same raw reference in a second handle.  The source
flags this with `FIXME: THIS TYPE SHOULD NOT IMPLEMENT CLONE`
(data.rs:74). -/
def CFMutableData.clone (s : CFState) (d : CFMutableData) :
    Option (CFMutableData × CFState) :=
  (CFRetain s d.ref).map fun s' => (⟨d.ref⟩, s')

/-! ### Helper lemmas about slot lists -/

theorem getD_snoc {α : Type} (l : List α) (a d : α) :
    (l ++ [a]).getD l.length d = a := by
  simp

theorem getD_set_self {α : Type} (l : List α) (n : Nat) (a d : α)
    (h : n < l.length) : (l.set n a).getD n d = a := by
  induction l generalizing n with
  | nil => simp at h
  | cons x xs ih =>
    cases n with
    | zero => rfl
    | succ m => simpa using ih m (by simpa using h)

theorem lt_length_of_getD {α : Type} (l : List (Option α)) (n : Nat)
    (o : α) (h : l.getD n none = some o) : n < l.length := by
  induction l generalizing n with
  | nil => simp [List.getD] at h
  | cons x xs ih =>
    cases n with
    | zero => simp
    | succ m =>
      exact Nat.succ_lt_succ (ih m (by simpa using h))

theorem set_getD_self {α : Type} (l : List (Option α)) (n : Nat) (o : α)
    (h : l.getD n none = some o) : l.set n (some o) = l := by
  induction l generalizing n with
  | nil => rfl
  | cons x xs ih =>
    cases n with
    | zero => simp_all
    | succ m => simpa using ih m (by simpa using h)

theorem CFState.lookup_update (s : CFState) (h : Nat) (o o' : CFObject)
    (hl : s.lookup h = some o') : (s.update h o).lookup h = some o := by
  have hlt : h < s.objects.length := lt_length_of_getD _ _ _ hl
  show (s.objects.set h (some o)).getD h none = some o
  exact getD_set_self _ _ _ _ (by simpa using hlt)

/-- On an object with no capacity bound, `extend_from_slice` appends the
given bytes at the end. -/
theorem extend_unbounded (s : CFState) (d : CFMutableData) (bs b : List Nat)
    (rc : Nat) (h : s.lookup d.ref = some ⟨bs, 0, rc⟩) :
    CFMutableData.extend_from_slice s d b =
      some (s.update d.ref ⟨bs ++ b, 0, rc⟩) := by
  simp [CFMutableData.extend_from_slice, CFMutableData.len, CFDataGetLength, h,
    CFDataReplaceBytes, List.take_length, List.drop_length]

/-- On any object, `extend_from_slice` appends when the result fits the
capacity bound and hits the fatal capacity-exceeded condition when it
does not. -/
theorem extend_eq_ite (s : CFState) (d : CFMutableData) (bs b : List Nat)
    (c rc : Nat) (h : s.lookup d.ref = some ⟨bs, c, rc⟩) :
    CFMutableData.extend_from_slice s d b =
      if c ≠ 0 ∧ c < bs.length + b.length then none
      else some (s.update d.ref ⟨bs ++ b, c, rc⟩) := by
  simp [CFMutableData.extend_from_slice, CFMutableData.len, CFDataGetLength, h,
    CFDataReplaceBytes, List.take_length, List.drop_length]

/-- Evaluation of `CFData::len` on a live handle. -/
theorem imm_len_some (s : CFState) (d : CFData) (o : CFObject)
    (h : s.lookup d.ref = some o) :
    CFData.len s d = some (o.bytes.length, s) := by
  simp [CFData.len, CFDataGetLength, h]

/-- Evaluation of `CFData::len` on a dead handle. -/
theorem imm_len_dead (s : CFState) (d : CFData)
    (h : s.lookup d.ref = none) : CFData.len s d = none := by
  simp [CFData.len, CFDataGetLength, h]

/-- Evaluation of `CFData::bytes` on a live handle: the slice is the first
`len()` bytes at the read pointer. -/
theorem imm_bytes_some (s : CFState) (d : CFData) (o : CFObject)
    (h : s.lookup d.ref = some o) :
    CFData.bytes s d = some (o.bytes.take o.bytes.length, s) := by
  simp [CFData.bytes, CFData.len, CFDataGetBytePtr, CFDataGetLength, h]

/-- Evaluation of `CFData::bytes` on a dead handle. -/
theorem imm_bytes_dead (s : CFState) (d : CFData)
    (h : s.lookup d.ref = none) : CFData.bytes s d = none := by
  simp [CFData.bytes, CFDataGetBytePtr, h]

/-- Evaluation of `CFMutableData::len` on a live handle. -/
theorem mut_len_some (s : CFState) (d : CFMutableData) (o : CFObject)
    (h : s.lookup d.ref = some o) :
    CFMutableData.len s d = some (o.bytes.length, s) := by
  simp [CFMutableData.len, CFDataGetLength, h]

/-- Evaluation of `CFMutableData::len` on a dead handle. -/
theorem mut_len_dead (s : CFState) (d : CFMutableData)
    (h : s.lookup d.ref = none) : CFMutableData.len s d = none := by
  simp [CFMutableData.len, CFDataGetLength, h]

/-- Evaluation of `CFMutableData::bytes` on a live handle. -/
theorem mut_bytes_some (s : CFState) (d : CFMutableData) (o : CFObject)
    (h : s.lookup d.ref = some o) :
    CFMutableData.bytes s d = some (o.bytes.take o.bytes.length, s) := by
  simp [CFMutableData.bytes, CFMutableData.len, CFDataGetBytePtr, CFDataGetLength, h]

/-- Evaluation of `CFMutableData::bytes` on a dead handle. -/
theorem mut_bytes_dead (s : CFState) (d : CFMutableData)
    (h : s.lookup d.ref = none) : CFMutableData.bytes s d = none := by
  simp [CFMutableData.bytes, CFDataGetBytePtr, h]

/-- Evaluation of `CFMutableData::bytes_mut` on a live handle. -/
theorem mut_bytes_mut_some (s : CFState) (d : CFMutableData)
    (o : CFObject) (h : s.lookup d.ref = some o) :
    CFMutableData.bytes_mut s d = some (o.bytes.take o.bytes.length, s) := by
  simp [CFMutableData.bytes_mut, CFMutableData.len, CFDataGetMutableBytePtr,
    CFDataGetLength, h]

/-- A `release` of a handle whose object holds its last retain count
deallocates the slot and bumps the ghost release counter by one. -/
theorem release_last (s : CFState) (h : Nat) (o : CFObject)
    (hl : s.lookup h = some o) (hrc : o.retainCount ≤ 1) :
    CFRelease s h = some ⟨s.objects.set h none, s.releases + 1⟩ ∧
    (⟨s.objects.set h none, s.releases + 1⟩ : CFState).lookup h = none := by
  have hlt : h < s.objects.length := lt_length_of_getD _ _ _ hl
  constructor
  · simp [CFRelease, hl, hrc]
  · show (s.objects.set h none).getD h none = none
    exact getD_set_self _ _ _ _ (by simpa using hlt)

/-! ### Claim theorems -/

/-- Claim C1, evaluated on the code at the failing input: `CFMutableData`
does support duplication.  Starting from the empty runtime state, `new()`
followed by the `Clone` implementation derived by `impl_TCFType!` (flagged
`FIXME: THIS TYPE SHOULD NOT IMPLEMENT CLONE` in the source, data.rs:74)
yields a second live handle wrapping the same underlying reference `0` as
the first, with both handles live at once (retain count `2` on the shared
foreign object), contradicting the claim that no operation produces a
second live handle to the same foreign mutable buffer. -/
theorem C1_mutable_clone_gives_second_handle :
    (CFMutableData.new ⟨[], 0⟩).1 = ⟨0⟩ ∧
    CFMutableData.clone (CFMutableData.new ⟨[], 0⟩).2 (CFMutableData.new ⟨[], 0⟩).1 =
      some (⟨0⟩, ⟨[some ⟨[], 0, 2⟩], 0⟩) :=
  ⟨rfl, rfl⟩

/-- Claim C3: `into_immutable()` consumes the mutable handle (the source
takes it by value and `mem::forget` suppresses its destructor, so the
handle cannot be used afterwards) and yields an immutable view wrapping
the identical underlying reference; it performs no foreign-runtime call,
hence no allocation and no retain/release pair, and in any runtime state
the produced view's bytes and length equal the consumed view's bytes and
length observed in that same state. -/
theorem C3_into_immutable_preserves (s : CFState) (m : CFMutableData) :
    (m.into_immutable).ref = m.ref ∧
    CFData.bytes s m.into_immutable = CFMutableData.bytes s m ∧
    CFData.len s m.into_immutable = CFMutableData.len s m :=
  ⟨rfl, rfl, rfl⟩

/-- Claim C4: for every byte sequence `b` and every starting state,
`from_buffer(b)` yields a handle whose `bytes()` is exactly `b` and whose
`len()` is `b.len()`. -/
theorem C4_from_buffer_roundtrip (s : CFState) (b : List Nat) :
    CFData.bytes (CFData.from_buffer s b).2 (CFData.from_buffer s b).1 =
      some (b, (CFData.from_buffer s b).2) ∧
    CFData.len (CFData.from_buffer s b).2 (CFData.from_buffer s b).1 =
      some (b.length, (CFData.from_buffer s b).2) := by
  have hl : (CFData.from_buffer s b).2.lookup (CFData.from_buffer s b).1.ref =
      some ⟨b, 0, 1⟩ := by
    show (s.objects ++ [(some ⟨b, 0, 1⟩ : Option CFObject)]).getD
        s.objects.length none = some ⟨b, 0, 1⟩
    exact getD_snoc _ _ _
  constructor
  · simp [CFData.bytes, CFData.len, CFDataGetBytePtr, CFDataGetLength, hl]
  · simp [CFData.len, CFDataGetLength, hl]

/-- Claim C7: `length()` is queried live from the foreign object and never
cached in the wrapper: in any state, `len()` of either variant equals the
current element count of the object the handle refers to; a `CFData`
produced by `into_immutable()` reports the same live count as the consumed
mutable handle; and after a mutation `set_len(n)` the queried length of
the same handle — and of an `into_immutable()` view of it — is the new
true count `n`. -/
theorem C7_len_queried_live (s s' : CFState) (m : CFMutableData) (n : Nat)
    (h : CFMutableData.set_len s m n = some s') :
    (∀ d : CFData,
      CFData.len s d = (s.lookup d.ref).map fun o => (o.bytes.length, s)) ∧
    (CFMutableData.len s m = (s.lookup m.ref).map fun o => (o.bytes.length, s)) ∧
    (CFData.len s m.into_immutable = CFMutableData.len s m) ∧
    CFMutableData.len s' m = some (n, s') ∧
    CFData.len s' m.into_immutable = some (n, s') := by
  obtain ⟨o, ho⟩ : ∃ o, s.lookup m.ref = some o := by
    cases hm : s.lookup m.ref with
    | none => simp [CFMutableData.set_len, CFDataSetLength, hm] at h
    | some o => exact ⟨o, rfl⟩
  have hs' : s' = s.update m.ref
      ⟨o.bytes.take n ++ List.replicate (n - o.bytes.length) 0,
       o.capacity, o.retainCount⟩ := by
    simp [CFMutableData.set_len, CFDataSetLength, ho] at h
    exact h.symm
  have hlen : (o.bytes.take n ++ List.replicate (n - o.bytes.length) 0).length = n := by
    simp only [List.length_append, List.length_take, List.length_replicate]
    omega
  have hl' : s'.lookup m.ref = some
      ⟨o.bytes.take n ++ List.replicate (n - o.bytes.length) 0,
       o.capacity, o.retainCount⟩ := by
    rw [hs']; exact CFState.lookup_update _ _ _ _ ho
  refine ⟨fun d => ?_, ?_, rfl, ?_, ?_⟩
  · cases hd : s.lookup d.ref <;> simp [CFData.len, CFDataGetLength, hd]
  · cases hm : s.lookup m.ref <;> simp [CFMutableData.len, CFDataGetLength, hm]
  · simp [CFMutableData.len, CFDataGetLength, hl', hlen]
  · simp [CFData.len, CFDataGetLength, CFMutableData.into_immutable, hl', hlen]

/-- Witness for C7 at a concrete input: a one-object state holding the
byte `[1]`, resized to length `3` by `set_len`. -/
theorem C7_len_queried_live_witness :
    (CFMutableData.set_len ⟨[some ⟨[1], 0, 1⟩], 0⟩ ⟨0⟩ 3 =
      some ⟨[some ⟨[1, 0, 0], 0, 1⟩], 0⟩) ∧
    ((∀ d : CFData,
      CFData.len ⟨[some ⟨[1], 0, 1⟩], 0⟩ d =
        (CFState.lookup ⟨[some ⟨[1], 0, 1⟩], 0⟩ d.ref).map
          fun o => (o.bytes.length, ⟨[some ⟨[1], 0, 1⟩], 0⟩)) ∧
    (CFMutableData.len ⟨[some ⟨[1], 0, 1⟩], 0⟩ ⟨0⟩ =
      (CFState.lookup ⟨[some ⟨[1], 0, 1⟩], 0⟩ (0 : Nat)).map
        fun o => (o.bytes.length, ⟨[some ⟨[1], 0, 1⟩], 0⟩)) ∧
    (CFData.len ⟨[some ⟨[1], 0, 1⟩], 0⟩ (CFMutableData.into_immutable ⟨0⟩) =
      CFMutableData.len ⟨[some ⟨[1], 0, 1⟩], 0⟩ ⟨0⟩) ∧
    CFMutableData.len ⟨[some ⟨[1, 0, 0], 0, 1⟩], 0⟩ ⟨0⟩ =
      some (3, ⟨[some ⟨[1, 0, 0], 0, 1⟩], 0⟩) ∧
    CFData.len ⟨[some ⟨[1, 0, 0], 0, 1⟩], 0⟩ (CFMutableData.into_immutable ⟨0⟩) =
      some (3, ⟨[some ⟨[1, 0, 0], 0, 1⟩], 0⟩)) :=
  ⟨rfl, C7_len_queried_live ⟨[some ⟨[1], 0, 1⟩], 0⟩
    ⟨[some ⟨[1, 0, 0], 0, 1⟩], 0⟩ ⟨0⟩ 3 rfl⟩

/-- Claim C2: each constructed handle's end of lifetime performs exactly
one release of the foreign retain count.  From any state: dropping the
handle made by `from_buffer` releases once (ghost counter `+1`) and
deallocates the object; dropping a fresh mutable handle likewise releases
exactly once; and on the `into_immutable()` path the whole trace
construct-convert-drop also releases exactly once — the conversion itself
touches no runtime state (the source handle's destructor is suppressed by
`mem::forget`), and the produced immutable handle performs the single
release at its own end of lifetime. -/
theorem C2_release_exactly_once (s : CFState) (b : List Nat) :
    (∃ s₂, CFData.drop (CFData.from_buffer s b).2 (CFData.from_buffer s b).1 =
        some s₂ ∧ s₂.releases = s.releases + 1 ∧
      s₂.lookup (CFData.from_buffer s b).1.ref = none) ∧
    (∃ s₂, CFMutableData.drop (CFMutableData.new s).2 (CFMutableData.new s).1 =
        some s₂ ∧ s₂.releases = s.releases + 1 ∧
      s₂.lookup (CFMutableData.new s).1.ref = none) ∧
    (∃ s₂, CFData.drop (CFMutableData.new s).2
        ((CFMutableData.new s).1.into_immutable) = some s₂ ∧
      s₂.releases = s.releases + 1 ∧
      s₂.lookup (CFMutableData.new s).1.ref = none) := by
  have h1 : (CFData.from_buffer s b).2.lookup (CFData.from_buffer s b).1.ref =
      some ⟨b, 0, 1⟩ := by
    show (s.objects ++ [(some ⟨b, 0, 1⟩ : Option CFObject)]).getD
        s.objects.length none = some ⟨b, 0, 1⟩
    exact getD_snoc _ _ _
  have h2 : (CFMutableData.new s).2.lookup (CFMutableData.new s).1.ref =
      some ⟨[], 0, 1⟩ := by
    show (s.objects ++ [(some ⟨[], 0, 1⟩ : Option CFObject)]).getD
        s.objects.length none = some ⟨[], 0, 1⟩
    exact getD_snoc _ _ _
  obtain ⟨e1, e1'⟩ := release_last _ _ _ h1 (Nat.le_refl 1)
  obtain ⟨e2, e2'⟩ := release_last _ _ _ h2 (Nat.le_refl 1)
  exact ⟨⟨_, e1, rfl, e1'⟩, ⟨_, e2, rfl, e2'⟩, ⟨_, e2, rfl, e2'⟩⟩

/-- Claim C5: `extend_from_slice(bytes)` appends at the current end via
the replace-range primitive applied to the zero-length range at offset
`length()` (see its definition — it is built on `CFDataReplaceBytes`, not
on `set_len`), growing the buffer by exactly `bytes.len()`: from `new()`,
extending with `b1` and then `b2` succeeds and yields bytes `b1 ++ b2`
and length `b1.len() + b2.len()`. -/
theorem C5_extend_from_slice_appends (s : CFState) (b1 b2 : List Nat) :
    ∃ s₁ s₂,
      CFMutableData.extend_from_slice (CFMutableData.new s).2
        (CFMutableData.new s).1 b1 = some s₁ ∧
      CFMutableData.extend_from_slice s₁ (CFMutableData.new s).1 b2 = some s₂ ∧
      CFMutableData.bytes s₂ (CFMutableData.new s).1 = some (b1 ++ b2, s₂) ∧
      CFMutableData.len s₂ (CFMutableData.new s).1 =
        some (b1.length + b2.length, s₂) := by
  have h0 : (CFMutableData.new s).2.lookup (CFMutableData.new s).1.ref =
      some ⟨[], 0, 1⟩ := by
    show (s.objects ++ [(some ⟨[], 0, 1⟩ : Option CFObject)]).getD
        s.objects.length none = some ⟨[], 0, 1⟩
    exact getD_snoc _ _ _
  have e1 := extend_unbounded _ _ _ b1 _ h0
  have h1 := CFState.lookup_update (CFMutableData.new s).2
    (CFMutableData.new s).1.ref ⟨[] ++ b1, 0, 1⟩ _ h0
  have e2 := extend_unbounded _ _ _ b2 _ h1
  have h2 := CFState.lookup_update _ (CFMutableData.new s).1.ref
    ⟨([] ++ b1) ++ b2, 0, 1⟩ _ h1
  refine ⟨_, _, e1, e2, ?_, ?_⟩
  · rw [mut_bytes_some _ _ _ h2]
    simp [List.take_length]
  · rw [mut_len_some _ _ _ h2]
    simp

/-- Claim C6: `set_len(n)` truncates to exactly the first `n` bytes when
`n < length()`, appends `n - length()` zero bytes after the existing
content when `n > length()`, and is a no-op (the runtime state is left
exactly as it was) when `n = length()`. -/
theorem C6_set_len_cases (s : CFState) (m : CFMutableData) (o : CFObject)
    (n : Nat) (h : s.lookup m.ref = some o) :
    (n < o.bytes.length →
      CFMutableData.set_len s m n =
        some (s.update m.ref ⟨o.bytes.take n, o.capacity, o.retainCount⟩)) ∧
    (o.bytes.length < n →
      CFMutableData.set_len s m n =
        some (s.update m.ref
          ⟨o.bytes ++ List.replicate (n - o.bytes.length) 0,
           o.capacity, o.retainCount⟩)) ∧
    (n = o.bytes.length → CFMutableData.set_len s m n = some s) := by
  refine ⟨fun hlt => ?_, fun hgt => ?_, fun heq => ?_⟩
  · simp [CFMutableData.set_len, CFDataSetLength, h,
      Nat.sub_eq_zero_of_le (Nat.le_of_lt hlt)]
  · simp [CFMutableData.set_len, CFDataSetLength, h,
      List.take_of_length_le (Nat.le_of_lt hgt)]
  · subst heq
    have hset := set_getD_self _ _ _ h
    simp [CFMutableData.set_len, CFDataSetLength, h, CFState.update,
      List.take_length]
    show { s with objects := s.objects.set m.ref (some o) } = s
    rw [hset]

/-- Witness for C6 at a concrete input: a one-object state holding bytes
`[1, 2]`, resized to length `1`. -/
theorem C6_set_len_cases_witness :
    (CFState.lookup ⟨[some ⟨[1, 2], 0, 1⟩], 0⟩ 0 = some ⟨[1, 2], 0, 1⟩) ∧
    ((1 < 2 →
      CFMutableData.set_len ⟨[some ⟨[1, 2], 0, 1⟩], 0⟩ ⟨0⟩ 1 =
        some (CFState.update ⟨[some ⟨[1, 2], 0, 1⟩], 0⟩ 0
          ⟨List.take 1 [1, 2], 0, 1⟩)) ∧
    (2 < 1 →
      CFMutableData.set_len ⟨[some ⟨[1, 2], 0, 1⟩], 0⟩ ⟨0⟩ 1 =
        some (CFState.update ⟨[some ⟨[1, 2], 0, 1⟩], 0⟩ 0
          ⟨[1, 2] ++ List.replicate (1 - 2) 0, 0, 1⟩)) ∧
    (1 = 2 →
      CFMutableData.set_len ⟨[some ⟨[1, 2], 0, 1⟩], 0⟩ ⟨0⟩ 1 =
        some ⟨[some ⟨[1, 2], 0, 1⟩], 0⟩)) :=
  ⟨rfl, C6_set_len_cases ⟨[some ⟨[1, 2], 0, 1⟩], 0⟩ ⟨0⟩ ⟨[1, 2], 0, 1⟩ 1 rfl⟩

/-- Claim C8: every byte view returned by `bytes()` (on either variant) or
`bytes_mut()` spans exactly `length()` bytes as queried at the moment of
the call: whenever the view and the length are both obtained in the same
state, the view's length equals the queried length — never more. -/
theorem C8_views_span_exactly_len (s : CFState) (d : CFData) (m : CFMutableData) :
    (∀ l s₂ n s₃, CFData.bytes s d = some (l, s₂) →
      CFData.len s d = some (n, s₃) → l.length = n) ∧
    (∀ l s₂ n s₃, CFMutableData.bytes s m = some (l, s₂) →
      CFMutableData.len s m = some (n, s₃) → l.length = n) ∧
    (∀ l s₂ n s₃, CFMutableData.bytes_mut s m = some (l, s₂) →
      CFMutableData.len s m = some (n, s₃) → l.length = n) := by
  refine ⟨fun l s₂ n s₃ hb hn => ?_, fun l s₂ n s₃ hb hn => ?_,
    fun l s₂ n s₃ hb hn => ?_⟩
  · cases hd : s.lookup d.ref with
    | none => rw [imm_bytes_dead _ _ hd] at hb; cases hb
    | some o =>
      rw [imm_bytes_some _ _ _ hd] at hb
      rw [imm_len_some _ _ _ hd] at hn
      obtain ⟨hb1, -⟩ := Prod.mk.injEq .. ▸ Option.some.inj hb
      obtain ⟨hn1, -⟩ := Prod.mk.injEq .. ▸ Option.some.inj hn
      rw [← hb1, ← hn1, List.take_length]
  · cases hd : s.lookup m.ref with
    | none => rw [mut_bytes_dead _ _ hd] at hb; cases hb
    | some o =>
      rw [mut_bytes_some _ _ _ hd] at hb
      rw [mut_len_some _ _ _ hd] at hn
      obtain ⟨hb1, -⟩ := Prod.mk.injEq .. ▸ Option.some.inj hb
      obtain ⟨hn1, -⟩ := Prod.mk.injEq .. ▸ Option.some.inj hn
      rw [← hb1, ← hn1, List.take_length]
  · cases hd : s.lookup m.ref with
    | none =>
      have : CFMutableData.bytes_mut s m = none := by
        simp [CFMutableData.bytes_mut, CFDataGetMutableBytePtr, hd]
      rw [this] at hb; cases hb
    | some o =>
      rw [mut_bytes_mut_some _ _ _ hd] at hb
      rw [mut_len_some _ _ _ hd] at hn
      obtain ⟨hb1, -⟩ := Prod.mk.injEq .. ▸ Option.some.inj hb
      obtain ⟨hn1, -⟩ := Prod.mk.injEq .. ▸ Option.some.inj hn
      rw [← hb1, ← hn1, List.take_length]

/-- Witness for C8 at a concrete input: a one-object state holding the
byte `[7]`; the view `[7]` spans exactly the queried length `1`. -/
theorem C8_views_span_exactly_len_witness :
    (CFData.bytes ⟨[some ⟨[7], 0, 1⟩], 0⟩ ⟨0⟩ =
      some ([7], ⟨[some ⟨[7], 0, 1⟩], 0⟩)) ∧
    (CFData.len ⟨[some ⟨[7], 0, 1⟩], 0⟩ ⟨0⟩ =
      some (1, ⟨[some ⟨[7], 0, 1⟩], 0⟩)) ∧
    ([7] : List Nat).length = 1 :=
  ⟨rfl, rfl,
    (C8_views_span_exactly_len ⟨[some ⟨[7], 0, 1⟩], 0⟩ ⟨0⟩ ⟨0⟩).1
      [7] ⟨[some ⟨[7], 0, 1⟩], 0⟩ 1 ⟨[some ⟨[7], 0, 1⟩], 0⟩ rfl rfl⟩

/-- Claim C9: on a buffer whose capacity bound is `n > 0`, an append that
keeps the total length at most `n` succeeds (in particular one reaching
exactly `n`), while an append that would make the total exceed `n` hits
the fatal, non-recoverable capacity-exceeded condition at the
foreign-runtime boundary (modelled as `none`); `with_maximum_capacity(n)`
creates its object with that bound, and a bound of `0` imposes no limit:
every append on a capacity-`0` object succeeds. -/
theorem C9_capacity_bound (s : CFState) (n : Nat) (b : List Nat)
    (m : CFMutableData) (bs : List Nat) (rc : Nat)
    (hn : 0 < n) (h : s.lookup m.ref = some ⟨bs, n, rc⟩) :
    ((CFMutableData.with_maximum_capacity s n).2.lookup
        (CFMutableData.with_maximum_capacity s n).1.ref = some ⟨[], n, 1⟩) ∧
    (bs.length + b.length ≤ n →
      CFMutableData.extend_from_slice s m b =
        some (s.update m.ref ⟨bs ++ b, n, rc⟩)) ∧
    (n < bs.length + b.length →
      CFMutableData.extend_from_slice s m b = none) ∧
    (∀ (m' : CFMutableData) (bs' : List Nat) (rc' : Nat),
      s.lookup m'.ref = some ⟨bs', 0, rc'⟩ →
      CFMutableData.extend_from_slice s m' b =
        some (s.update m'.ref ⟨bs' ++ b, 0, rc'⟩)) := by
  refine ⟨?_, fun hle => ?_, fun hgt => ?_,
    fun m' bs' rc' h' => extend_unbounded s m' bs' b rc' h'⟩
  · show (s.objects ++ [(some ⟨[], n, 1⟩ : Option CFObject)]).getD
        s.objects.length none = some ⟨[], n, 1⟩
    exact getD_snoc _ _ _
  · rw [extend_eq_ite s m bs b n rc h, if_neg]
    omega
  · rw [extend_eq_ite s m bs b n rc h, if_pos]
    omega

/-- Witness for C9 at a concrete input: a one-object state holding `[5]`
under capacity bound `2`; appending one byte reaches exactly the bound
and succeeds, appending past it is fatal. -/
theorem C9_capacity_bound_witness :
    ((0 : Nat) < 2 ∧ CFState.lookup ⟨[some ⟨[5], 2, 1⟩], 0⟩ 0 = some ⟨[5], 2, 1⟩) ∧
    (((CFMutableData.with_maximum_capacity ⟨[some ⟨[5], 2, 1⟩], 0⟩ 2).2.lookup
        (CFMutableData.with_maximum_capacity ⟨[some ⟨[5], 2, 1⟩], 0⟩ 2).1.ref =
        some ⟨[], 2, 1⟩) ∧
    ((1 : Nat) + 1 ≤ 2 →
      CFMutableData.extend_from_slice ⟨[some ⟨[5], 2, 1⟩], 0⟩ ⟨0⟩ [7] =
        some (CFState.update ⟨[some ⟨[5], 2, 1⟩], 0⟩ 0 ⟨[5] ++ [7], 2, 1⟩)) ∧
    ((2 : Nat) < 1 + 1 →
      CFMutableData.extend_from_slice ⟨[some ⟨[5], 2, 1⟩], 0⟩ ⟨0⟩ [7] = none) ∧
    (∀ (m' : CFMutableData) (bs' : List Nat) (rc' : Nat),
      CFState.lookup ⟨[some ⟨[5], 2, 1⟩], 0⟩ m'.ref = some ⟨bs', 0, rc'⟩ →
      CFMutableData.extend_from_slice ⟨[some ⟨[5], 2, 1⟩], 0⟩ m' [7] =
        some (CFState.update ⟨[some ⟨[5], 2, 1⟩], 0⟩ m'.ref ⟨bs' ++ [7], 0, rc'⟩))) :=
  ⟨⟨by decide, rfl⟩,
    C9_capacity_bound ⟨[some ⟨[5], 2, 1⟩], 0⟩ 2 [7] ⟨0⟩ [5] 1 (by decide) rfl⟩

/-- Claim C10: the read operations `bytes()`, `len()` and
dereference-to-slice, on either variant, perform only non-mutating
foreign calls and return the runtime state exactly as it was: after any
such call every foreign object's length and byte contents are identical
to what they were before the call. -/
theorem C10_reads_leave_state_unchanged (s : CFState) (d : CFData)
    (m : CFMutableData) :
    (∀ r, CFData.bytes s d = some r → r.2 = s) ∧
    (∀ r, CFData.len s d = some r → r.2 = s) ∧
    (∀ r, CFData.deref s d = some r → r.2 = s) ∧
    (∀ r, CFMutableData.bytes s m = some r → r.2 = s) ∧
    (∀ r, CFMutableData.len s m = some r → r.2 = s) ∧
    (∀ r, CFMutableData.deref s m = some r → r.2 = s) := by
  have hb : ∀ r, CFData.bytes s d = some r → r.2 = s := by
    intro r hr
    cases hd : s.lookup d.ref with
    | none => rw [imm_bytes_dead _ _ hd] at hr; cases hr
    | some o =>
      rw [imm_bytes_some _ _ _ hd] at hr
      rw [← Option.some.inj hr]
  have hb' : ∀ r, CFMutableData.bytes s m = some r → r.2 = s := by
    intro r hr
    cases hd : s.lookup m.ref with
    | none => rw [mut_bytes_dead _ _ hd] at hr; cases hr
    | some o =>
      rw [mut_bytes_some _ _ _ hd] at hr
      rw [← Option.some.inj hr]
  refine ⟨hb, ?_, hb, hb', ?_, hb'⟩
  · intro r hr
    cases hd : s.lookup d.ref with
    | none => rw [imm_len_dead _ _ hd] at hr; cases hr
    | some o =>
      rw [imm_len_some _ _ _ hd] at hr
      rw [← Option.some.inj hr]
  · intro r hr
    cases hd : s.lookup m.ref with
    | none => rw [mut_len_dead _ _ hd] at hr; cases hr
    | some o =>
      rw [mut_len_some _ _ _ hd] at hr
      rw [← Option.some.inj hr]

/-- Witness for C10 at a concrete input: reading `bytes()` on a one-object
state returns that very state. -/
theorem C10_reads_leave_state_unchanged_witness :
    (CFData.bytes ⟨[some ⟨[7], 0, 1⟩], 0⟩ ⟨0⟩ =
      some ([7], ⟨[some ⟨[7], 0, 1⟩], 0⟩)) ∧
    (([7], (⟨[some ⟨[7], 0, 1⟩], 0⟩ : CFState)).2 = ⟨[some ⟨[7], 0, 1⟩], 0⟩) :=
  ⟨rfl,
    (C10_reads_leave_state_unchanged ⟨[some ⟨[7], 0, 1⟩], 0⟩ ⟨0⟩ ⟨0⟩).1
      ([7], ⟨[some ⟨[7], 0, 1⟩], 0⟩) rfl⟩

end CFEmbed
